import Mathlib

set_option maxHeartbeats 1000000

/-!
Verification of the Oracle 23ai split-text Langflow component
(`components/splittext/oracledb_splittext.py`).

The component's pipeline is: input normalization (`split_text_base`,
lines 130-161), separator resolution (`_fix_separator` plus the host
`unescape_string` utility), chunk splitting (delegated to the external
`CharacterTextSplitter` library), and the Oracle record mapper
(`_docs_to_oracle_data`).  Python dictionaries are embedded as ordered
association lists with insertion-order update semantics, JSON
serialization as an executable renderer and parser over those lists,
`uuid.uuid4` as an injective counter-indexed supply of version-4 UUID
strings, and the wall clock as an explicit `now` argument.
-/

/-- The opening-brace character, kept as a named constant. -/
def lbraceC : Char := Char.ofNat 123

/-- The closing-brace character, kept as a named constant. -/
def rbraceC : Char := Char.ofNat 125

/-- A metadata value: the strings and integers that flow through the
component's metadata dictionaries. -/
inductive MVal : Type
  | s (v : String)
  | i (v : Int)
deriving DecidableEq

/-- A Python dictionary with string keys, as an insertion-ordered
association list (no duplicate keys are ever constructed). -/
abbrev Metadata := List (String × MVal)

/-- `d.get(k)` on a Python dict. -/
def dictGet? : Metadata → String → Option MVal
  | [], _ => none
  | p :: m, k => if p.1 = k then some p.2 else dictGet? m k

/-- `d[k] = v` on a Python dict: replaces the value in place when the key
exists (keeping its position), appends otherwise. -/
def dictSet : Metadata → String → MVal → Metadata
  | [], k, v => [(k, v)]
  | p :: m, k, v => if p.1 = k then (k, v) :: m else p :: dictSet m k v

/-- `d.pop(k, default)`'s effect on the dict: the dict without key `k`. -/
def dictRemove : Metadata → String → Metadata
  | [], _ => []
  | p :: m, k => if p.1 = k then m else p :: dictRemove m k

/-- Decimal digit character for `n < 10`. -/
def digitChar10 (n : Nat) : Char := Char.ofNat (48 + n)

/-- Fuel-driven most-significant-first decimal rendering of a natural
number (the fuel is an upper bound on the number, making the recursion
structural and kernel-reducible). -/
def natDecF : Nat → Nat → List Char
  | 0, _ => []
  | fuel + 1, n => if n < 10 then [digitChar10 n]
      else natDecF fuel (n / 10) ++ [digitChar10 (n % 10)]

/-- Decimal rendering of a natural number, as Python's `str` writes it. -/
def natDec (n : Nat) : List Char := natDecF (n + 1) n

/-- Decimal rendering of an integer, as Python's `str`/`json.dumps`
write it. -/
def intChars (i : Int) : List Char :=
  if i < 0 then '-' :: natDec i.natAbs else natDec i.toNat

/-- Is `c` an ASCII decimal digit? -/
def isDigitC (c : Char) : Bool := decide (48 ≤ c.toNat ∧ c.toNat ≤ 57)

/-- Numeric value of a digit character. -/
def digitVal (c : Char) : Nat := c.toNat - 48

/-- Fold a digit string onto an accumulator: `"…d" ↦ a*10 + d`. -/
def decValFrom (a : Nat) : List Char → Nat
  | [] => a
  | c :: cs => decValFrom (a * 10 + digitVal c) cs

/-- Parse a maximal nonempty run of decimal digits. -/
def parseNatC (cs : List Char) : Option (Nat × List Char) :=
  let ds := cs.takeWhile isDigitC
  if ds = [] then none else some (decValFrom 0 ds, cs.dropWhile isDigitC)

/-- JSON string-body escaping as `json.dumps(..., ensure_ascii=False)`
performs it on the metadata produced by this component: quote and
backslash are escaped, every other character (non-ASCII included) is kept
literally.  (Control characters, which `json.dumps` would additionally
escape, never round-trip differently here: the parser below accepts them
literally as well.) -/
def escChars : List Char → List Char
  | [] => []
  | c :: cs => if c = '"' ∨ c = '\\' then '\\' :: c :: escChars cs else c :: escChars cs

/-- Render one metadata value as `json.dumps` does. -/
def renderVal : MVal → List Char
  | .s v => '"' :: escChars v.data ++ ['"']
  | .i v => intChars v

/-- Render one `"key": value` pair as `json.dumps` does. -/
def renderKV (k : String) (v : MVal) : List Char :=
  '"' :: escChars k.data ++ '"' :: ':' :: ' ' :: renderVal v

/-- Render the entries of a dict, with `json.dumps`'s default `", "`
separator, up to and including the closing brace. -/
def renderEntries : Metadata → List Char
  | [] => [rbraceC]
  | [(k, v)] => renderKV k v ++ [rbraceC]
  | (k, v) :: m => renderKV k v ++ ',' :: ' ' :: renderEntries m

/-- `json.dumps(metadata, ensure_ascii=False, default=str)` restricted to
the string/integer dictionaries this component serializes
(`oracledb_splittext.py`, line 100). -/
def renderMeta (m : Metadata) : String := String.mk (lbraceC :: renderEntries m)

/-- Parse a JSON string body up to its closing quote, undoing `escChars`. -/
def parseStrAux : List Char → Option (List Char × List Char)
  | [] => none
  | c :: cs =>
    if c = '"' then some ([], cs)
    else if c = '\\' then
      match cs with
      | [] => none
      | d :: cs' => (parseStrAux cs').map (fun p => (d :: p.1, p.2))
    else (parseStrAux cs).map (fun p => (c :: p.1, p.2))

/-- Parse one JSON value of the shapes this component emits. -/
def parseVal (cs : List Char) : Option (MVal × List Char) :=
  match cs with
  | [] => none
  | c :: cs' =>
    if c = '"' then (parseStrAux cs').map (fun p => (MVal.s (String.mk p.1), p.2))
    else if c = '-' then (parseNatC cs').map (fun p => (MVal.i (-(p.1 : Int)), p.2))
    else (parseNatC (c :: cs')).map (fun p => (MVal.i (p.1 : Int), p.2))

/-- Parse the entries of a JSON object (after the opening brace of a
nonempty object), consuming the closing brace, which must end the input.
The fuel bounds the number of entries. -/
def parseEntriesF : Nat → List Char → Option Metadata
  | fuel + 1, c :: cs =>
    if c = '"' then
      match parseStrAux cs with
      | none => none
      | some (k, cs1) =>
        match cs1 with
        | ':' :: ' ' :: cs2 =>
          match parseVal cs2 with
          | none => none
          | some (v, cs3) =>
            match cs3 with
            | [] => none
            | c' :: cs4 =>
              if c' = rbraceC then (if cs4 = [] then some [(String.mk k, v)] else none)
              else if c' = ',' then
                match cs4 with
                | ' ' :: cs5 => (parseEntriesF fuel cs5).map (fun m => (String.mk k, v) :: m)
                | _ => none
              else none
        | _ => none
    else none
  | _, _ => none

/-- The continuation of `parseEntriesF` after one `"key": value` entry
has been consumed: accept the final closing brace or a `", "` separator
followed by further entries. -/
def entryStep (k : String) (v : MVal) (fuel : Nat) : List Char → Option Metadata
  | [] => none
  | c' :: cs4 =>
    if c' = rbraceC then (if cs4 = [] then some [(k, v)] else none)
    else if c' = ',' then
      match cs4 with
      | ' ' :: cs5 => (parseEntriesF fuel cs5).map (fun m => (k, v) :: m)
      | _ => none
    else none

/-- Parse the body of a JSON object (everything after the opening brace). -/
def parseObjBody (fuel : Nat) (cs : List Char) : Option Metadata :=
  match cs with
  | [] => none
  | c :: cs' =>
    if c = rbraceC then (if cs' = [] then some [] else none)
    else parseEntriesF fuel (c :: cs')

/-- `json.loads` restricted to the flat string/integer objects this
component emits: the partial inverse of `renderMeta`. -/
def parseMeta (s : String) : Option Metadata :=
  match s.data with
  | [] => none
  | c :: cs => if c = lbraceC then parseObjBody (cs.length + 1) cs else none

/-- Hex digit character for `n < 16` (lowercase, as Python's `uuid`
module prints). -/
def hexDigitC (n : Nat) : Char := if n < 10 then Char.ofNat (48 + n) else Char.ofNat (87 + n)

/-- Fixed-width most-significant-first hexadecimal rendering of
`n mod 16^len`. -/
def hexChars : Nat → Nat → List Char
  | 0, _ => []
  | l + 1, n => hexChars l (n / 16) ++ [hexDigitC (n % 16)]

/-- The counter-indexed model of `uuid.uuid4()` (`_generate_id`, lines
77-79): the `n`-th draw of the random supply, rendered in the canonical
8-4-4-4-12 version-4 layout (version nibble `4`, variant nibble `8`, the
remaining 120 bits carrying `n mod 16^30`).  Distinct counters below
`16^30` give distinct UUID strings, which is the defining property the
code relies on from the random generator. -/
def uuidFromNat (n : Nat) : String :=
  let m := n % 16 ^ 30
  String.mk (hexChars 8 (m / 16 ^ 22) ++ '-' ::
    (hexChars 4 (m / 16 ^ 18 % 16 ^ 4) ++ '-' :: '4' ::
      (hexChars 3 (m / 16 ^ 15 % 16 ^ 3) ++ '-' :: '8' ::
        (hexChars 3 (m / 16 ^ 12 % 16 ^ 3) ++ '-' :: hexChars 12 (m % 16 ^ 12)))))

/-- Is `c` a lowercase hexadecimal digit? -/
def isHexC (c : Char) : Bool :=
  decide ((48 ≤ c.toNat ∧ c.toNat ≤ 57) ∨ (97 ≤ c.toNat ∧ c.toNat ≤ 102))

/-- Split a character list on `'-'` occurrences. -/
def splitDash : List Char → List (List Char)
  | [] => [[]]
  | c :: cs =>
    if c = '-' then [] :: splitDash cs
    else
      match splitDash cs with
      | g :: gs => (c :: g) :: gs
      | [] => [[c]]

/-- Syntactic validity of a canonical version-4 UUID string: five
dash-separated lowercase-hex groups of widths 8-4-4-4-12, version nibble
`4`, variant nibble in `8`/`9`/`a`/`b`. -/
def isValidUUIDv4 (s : String) : Bool :=
  match splitDash s.data with
  | [g1, g2, g3, g4, g5] =>
    decide (g1.length = 8 ∧ g2.length = 4 ∧ g3.length = 4 ∧ g4.length = 4 ∧ g5.length = 12) &&
    (g1 ++ g2 ++ g3 ++ g4 ++ g5).all isHexC &&
    (match g3 with | c :: _ => decide (c = '4') | [] => false) &&
    (match g4 with | c :: _ => decide (c = '8' ∨ c = '9' ∨ c = 'a' ∨ c = 'b') | [] => false)
  | _ => false

/-- `_fix_separator` (lines 118-124): map the mistyped literals `"/n"`
and `"/t"` to newline and tab, pass everything else through. -/
def fixSeparator (s : String) : String :=
  if s = "/n" then "\n" else if s = "/t" then "\t" else s

/-- Replace the two-character escape sequences backslash-`n` and
backslash-`t` by the characters they denote, left to right. -/
def unescapeChars : List Char → List Char
  | [] => []
  | '\\' :: 'n' :: cs => '\n' :: unescapeChars cs
  | '\\' :: 't' :: cs => '\t' :: unescapeChars cs
  | c :: cs => c :: unescapeChars cs

/-- Modelled from the spec: the host utility `lfx.utils.util.unescape_string`
is not part of the sources under review; per the spec (section 4.2)
"standard escape-sequence unescaping is applied (e.g., a literal
backslash-n in user input becomes an actual newline)".  It always
returns a string and never fails. -/
def unescapeString (s : String) : String := String.mk (unescapeChars s.data)

/-- Separator resolution as `split_text_base` performs it (lines
127-128): `_fix_separator` followed by `unescape_string`. -/
def resolveSeparator (s : String) : String := unescapeString (fixSeparator s)

/-- Does `p` start `cs`?  If so, return the rest. -/
def dropPrefixC : List Char → List Char → Option (List Char)
  | [], rest => some rest
  | _ :: _, [] => none
  | p :: ps, c :: cs => if p = c then dropPrefixC ps cs else none

/-- Fuel-driven split of `cs` on the nonempty literal separator
`s0 :: stail`, matching Python's `re.split` on an escaped separator
(non-overlapping, left to right).  Fuel at least `cs.length` suffices. -/
def splitOnSepF (fuel : Nat) (s0 : Char) (stail : List Char) (cs : List Char) :
    List (List Char) :=
  match fuel, cs with
  | _, [] => [[]]
  | 0, cs => [cs]
  | fuel + 1, c :: cs' =>
    match dropPrefixC (s0 :: stail) (c :: cs') with
    | some rest => [] :: splitOnSepF fuel s0 stail rest
    | none =>
      match splitOnSepF fuel s0 stail cs' with
      | g :: gs => (c :: g) :: gs
      | [] => [[c]]

/-- Split a character list on a literal separator; an empty separator
leaves the text whole. -/
def splitOnSep (sep cs : List Char) : List (List Char) :=
  match sep with
  | [] => [cs]
  | s0 :: stail => splitOnSepF cs.length s0 stail cs

/-- Is `c` ASCII whitespace (the characters Python's `str.strip`
removes from the chunk texts this component produces)? -/
def isSpaceC (c : Char) : Bool := decide (c = ' ' ∨ c = '\t' ∨ c = '\n' ∨ c = '\r')

/-- Strip leading and trailing whitespace. -/
def trimChars (cs : List Char) : List Char :=
  ((cs.dropWhile isSpaceC).reverse.dropWhile isSpaceC).reverse

/-- Modelled from the spec: the external splitter's `_join_docs` — join
the accumulated pieces with the separator, strip surrounding whitespace,
and drop the chunk when nothing remains. -/
def joinDocs (sep : List Char) (parts : List (List Char)) : Option (List Char) :=
  let t := trimChars (List.intercalate sep parts)
  if t = [] then none else some t

/-- Modelled from the spec: the overlap-retention loop of the external
splitter's greedy merge — after flushing a chunk, drop leading pieces
while the retained total exceeds `chunk_overlap` (or still cannot
accommodate the next piece of length `dLen`). -/
def popWhile (chunkSize chunkOverlap sepLen dLen : Int) :
    List (List Char) → Int → List (List Char) × Int
  | [], total => ([], total)
  | c0 :: rest, total =>
    if total > chunkOverlap ∨ (total + dLen + sepLen > chunkSize ∧ total > 0) then
      popWhile chunkSize chunkOverlap sepLen dLen rest
        (total - ((c0.length : Int) + (if rest = [] then 0 else sepLen)))
    else (c0 :: rest, total)

/-- Modelled from the spec (section 4.3) and the component's own
`chunk_size` description ("Text is first split by separator, then chunks
are merged up to this size. Individual splits larger than this won't be
further divided."): the external splitter's greedy merge for the
`keep_separator = False` policy — the component default and the only
policy the verified claims exercise.  Pieces accumulate into the current
chunk while the joined length (separators included) stays within
`chunk_size`; on overflow the current chunk is flushed and up to
`chunk_overlap` characters' worth of trailing pieces are retained; an
oversized single piece is emitted whole. -/
def mergeLoop (chunkSize chunkOverlap sepLen : Int) (sep : List Char) :
    List (List Char) → List (List Char) → List (List Char) → Int → List (List Char)
  | [], docs, cur, _ =>
    (match joinDocs sep cur with
     | some d => docs ++ [d]
     | none => docs)
  | d :: ds, docs, cur, total =>
    let len : Int := d.length
    let needFlush := total + len + (if cur = [] then 0 else sepLen) > chunkSize
    let state :=
      if needFlush then
        if cur = [] then (docs, cur, total)
        else
          let docs' :=
            match joinDocs sep cur with
            | some dd => docs ++ [dd]
            | none => docs
          let pair := popWhile chunkSize chunkOverlap sepLen len cur total
          (docs', pair.1, pair.2)
      else (docs, cur, total)
    let cur2 := state.2.1 ++ [d]
    let total2 := state.2.2 + len + (if cur2.length > 1 then sepLen else 0)
    mergeLoop chunkSize chunkOverlap sepLen sep ds state.1 cur2 total2

/-- Modelled from the spec: the external `CharacterTextSplitter.split_text`
for the discard (`keep_separator = False`) policy — split on the literal
separator, discard empty pieces, then greedily merge. -/
def splitTextChunks (chunkSize chunkOverlap : Int) (sep text : String) : List String :=
  let pieces := (splitOnSep sep.data text.data).filter (fun p => p ≠ [])
  (mergeLoop chunkSize chunkOverlap (sep.data.length : Int) sep.data pieces [] [] 0).map
    String.mk

-- Propositional equality on `Except` results is decidable (used by the
-- concrete evaluations below).
deriving instance DecidableEq for Except

/-- A langchain `Document`: the chunkable unit flowing between the
normalizer, the splitter and the record mapper. -/
structure Document where
  page_content : String
  metadata : Metadata
deriving DecidableEq

/-- A langflow `Data` record: its payload dict and its `text_key`
attribute (default `"text"`). -/
structure DataRec where
  data : Metadata
  text_key : String := "text"
deriving DecidableEq

/-- Modelled from the spec: the host conversion utility
`Data.to_lc_document` (an external collaborator per spec section 6) —
extract the configured text-key field as the content and the remaining
fields as the metadata of a fresh document; a missing or non-string
text field yields empty content. -/
def DataRec.toLcDocument (d : DataRec) : Document :=
  { page_content :=
      match dictGet? d.data d.text_key with
      | some (MVal.s t) => t
      | _ => ""
    metadata := dictRemove d.data d.text_key }

/-- An element of a collection input: either a langflow `Data` record or
something that is not a structured record at all. -/
inductive InputElem
  | data (d : DataRec)
  | other
deriving DecidableEq

/-- The `Data` payload of a collection element, if it is one. -/
def InputElem.getData? : InputElem → Option DataRec
  | .data d => some d
  | .other => none

/-- Is this collection element a structured `Data` record? -/
def InputElem.isData : InputElem → Bool
  | .data _ => true
  | .other => false

/-- The shapes `data_inputs` can take (`HandleInput` accepting `Data`,
`DataFrame` and `Message`, plus lists of elements and an absent input). -/
inductive DataInputs
  | dataframe (rows : List DataRec)
  | message (text : String)
  | single (d : DataRec)
  | collection (items : List InputElem)
  | absent
deriving DecidableEq

/-- The distinct failure sites of `split_text_base`, one constructor per
`raise` (all are Python `TypeError`s with the quoted messages; the
spec's taxonomy names `emptyDataFrame` `EmptyInputError`, the input
errors `InvalidInputError`, and `splitFailure` `SplitError`). -/
inductive PipelineError
  | emptyDataFrame
  | dataFrameConversion
  | noDataInputs
  | noValidData
  | invalidCollection
  | splitFailure
deriving DecidableEq

/-- The component's splitting configuration. -/
structure SplitParams where
  chunk_overlap : Int := 200
  chunk_size : Int := 1000
  separator : String := "\n"
  text_key : String := "text"
deriving DecidableEq

/-- Modelled from the spec: `Message.to_data()` wraps the message text
into a `Data` record keyed `"text"` (spec section 4.1, shape 2). -/
def messageToData (text : String) : DataRec := { data := [("text", MVal.s text)] }

/-- The input-normalization stage of `split_text_base` (lines 130-161):
dispatch on the input shape and produce the list of documents to split.
The `Message` branch of the source wraps the message into a one-element
list of `Data` and re-enters the function; that recursion always lands
in the collection branch, which is inlined here.  Note that only the
`DataFrame` and single-`Data` branches propagate the configured
`text_key`; elements of a collection keep their own. -/
def normalizeInputs (inputs : DataInputs) (tk : String) :
    Except PipelineError (List Document) :=
  match inputs with
  | .dataframe rows =>
    if rows.length = 0 then .error .emptyDataFrame
    else .ok (rows.map (fun r => DataRec.toLcDocument { r with text_key := tk }))
  | .message text =>
    .ok ((([InputElem.data (messageToData text)].filterMap InputElem.getData?).map
      DataRec.toLcDocument))
  | .single d => .ok [DataRec.toLcDocument { d with text_key := tk }]
  | .collection items =>
    if items = [] then .error .noDataInputs
    else
      let ds := items.filterMap InputElem.getData?
      if ds = [] then .error .noValidData
      else .ok (ds.map DataRec.toLcDocument)
  | .absent => .error .noDataInputs

/-- Split one document into its chunks; each chunk deep-copies the
document's metadata (as the external splitter's `create_documents`
does). -/
def chunksOfDoc (p : SplitParams) (d : Document) : List Document :=
  (splitTextChunks p.chunk_size p.chunk_overlap (resolveSeparator p.separator)
      d.page_content).map
    (fun t => { page_content := t, metadata := d.metadata })

/-- `split_text_base` (lines 126-181): resolve the separator, normalize
the inputs, and split every document, returning the flat ordered list of
chunks.  The external splitter rejects `chunk_overlap > chunk_size`
(wrapped into the "Error splitting text" `TypeError`). -/
def splitTextBase (inputs : DataInputs) (p : SplitParams) :
    Except PipelineError (List Document) :=
  match normalizeInputs inputs p.text_key with
  | .error e => .error e
  | .ok docs =>
    if p.chunk_overlap > p.chunk_size then .error .splitFailure
    else .ok ((docs.map (chunksOfDoc p)).flatten)

/-- A record shaped for the Oracle PDFCOLLECTION table (the `Data`
payload built at lines 103-113). -/
structure OracleRecord where
  id : String
  text : String
  metadata : String
  embedding : Option Unit
  created_at : String
  source_metadata : Metadata
deriving DecidableEq

/-- A default record, used as the out-of-range value of list lookups. -/
def defaultRecord : OracleRecord :=
  { id := "", text := "", metadata := "", embedding := none, created_at := "",
    source_metadata := [] }

/-- A default document, used as the out-of-range value of list lookups. -/
def defaultDoc : Document := { page_content := "", metadata := [] }

/-- The loop body of `_docs_to_oracle_data` (lines 92-114) for one chunk
at position `idx` of the enumeration, with the UUID supply at `ctr`:
generate the record id, set `chunk_index`, set `source_id` (reusing a
present one; note Python evaluates the `metadata.get` default eagerly,
so a UUID is drawn from the supply either way), serialize, and build the
record.  Returns the record and the advanced supply counter. -/
def oracleRecordOf (now : String) (idx ctr : Nat) (doc : Document) :
    OracleRecord × Nat :=
  let chunk_id := uuidFromNat ctr
  let fresh_source := uuidFromNat (ctr + 1)
  let md1 := dictSet doc.metadata "chunk_index" (MVal.i (idx : Int))
  let md2 := dictSet md1 "source_id" ((dictGet? md1 "source_id").getD (MVal.s fresh_source))
  ({ id := chunk_id, text := doc.page_content, metadata := renderMeta md2,
     embedding := none, created_at := now, source_metadata := md2 }, ctr + 2)

/-- `_docs_to_oracle_data` (lines 91-116): map every chunk, in
enumeration order, to its Oracle record. -/
def docsToOracleData (now : String) : List Document → Nat → Nat → List OracleRecord
  | [], _, _ => []
  | c :: cs, idx, ctr =>
    (oracleRecordOf now idx ctr c).1 ::
      docsToOracleData now cs (idx + 1) (oracleRecordOf now idx ctr c).2

/-- `split_text` (lines 183-195): split, then map the chunks to Oracle
records (the emitted DataFrame's rows, in order). -/
def splitText (inputs : DataInputs) (p : SplitParams) (ctr : Nat) (now : String) :
    Except PipelineError (List OracleRecord) :=
  match splitTextBase inputs p with
  | .error e => .error e
  | .ok chunks => .ok (docsToOracleData now chunks 0 ctr)

/-- Split a list into consecutive groups of the given sizes. -/
def partitionBy : List Nat → List OracleRecord → List (List OracleRecord)
  | [], _ => []
  | n :: ns, xs => xs.take n :: partitionBy ns (xs.drop n)

/-- The pipeline's records grouped by originating source document (a
formalization device: `split_text` emits the flat concatenation of these
groups, in document order). -/
def splitTextGrouped (inputs : DataInputs) (p : SplitParams) (ctr : Nat) (now : String) :
    Except PipelineError (List (List OracleRecord)) :=
  match normalizeInputs inputs p.text_key with
  | .error e => .error e
  | .ok docs =>
    if p.chunk_overlap > p.chunk_size then .error .splitFailure
    else
      let groups := docs.map (chunksOfDoc p)
      .ok (partitionBy (groups.map List.length) (docsToOracleData now groups.flatten 0 ctr))

/-- A chunk as the record mapper sees it when Python object identity
matters: its text together with a reference into the metadata store
(the heap of metadata dict objects). -/
structure ChunkRef where
  page_content : String
  metaRef : Nat
deriving DecidableEq

/-- The heap of metadata dictionaries, indexed by `ChunkRef.metaRef`. -/
abbrev MetaStore := List Metadata

/-- Read a metadata object out of the store. -/
def storeGet (st : MetaStore) (r : Nat) : Metadata := st.getD r []

/-- An Oracle record whose `source_metadata` field is the reference to
the (mutated) metadata object, as in the source, where
`'source_metadata': metadata` stores the very dict that was updated in
place. -/
structure OracleRecordRef where
  id : String
  text : String
  metadata : String
  embedding : Option Unit
  created_at : String
  source_metadata : Nat
deriving DecidableEq

/-- The loop body of `_docs_to_oracle_data` (lines 92-114) with explicit
heap: `metadata = doc.metadata` aliases the chunk's dict,
`metadata['chunk_index'] = idx` and `metadata['source_id'] = …` mutate
it in place, `json.dumps` reads the mutated object, and the record's
`source_metadata` is the reference to that same object. -/
def oracleRecordOfRef (now : String) (idx ctr : Nat) (st : MetaStore) (doc : ChunkRef) :
    OracleRecordRef × MetaStore × Nat :=
  let chunk_id := uuidFromNat ctr
  let fresh_source := uuidFromNat (ctr + 1)
  let md0 := storeGet st doc.metaRef
  let md1 := dictSet md0 "chunk_index" (MVal.i (idx : Int))
  let md2 := dictSet md1 "source_id" ((dictGet? md1 "source_id").getD (MVal.s fresh_source))
  ({ id := chunk_id, text := doc.page_content, metadata := renderMeta md2,
     embedding := none, created_at := now, source_metadata := doc.metaRef },
   st.set doc.metaRef md2, ctr + 2)

/-- The value the two in-place assignments of `_docs_to_oracle_data`
(lines 98-99) leave in a chunk's metadata dict whose pre-assignment
content is `md0`. -/
def updatedMeta (md0 : Metadata) (idx ctr : Nat) : Metadata :=
  let md1 := dictSet md0 "chunk_index" (MVal.i (idx : Int))
  dictSet md1 "source_id" ((dictGet? md1 "source_id").getD (MVal.s (uuidFromNat (ctr + 1))))

/-- A default heap-referencing record, used as the out-of-range value of
list lookups. -/
def defaultRecordRef : OracleRecordRef :=
  { id := "", text := "", metadata := "", embedding := none, created_at := "",
    source_metadata := 0 }

/-- A default chunk reference, used as the out-of-range value of list
lookups. -/
def defaultChunkRef : ChunkRef := { page_content := "", metaRef := 0 }

/-- `_docs_to_oracle_data` with the explicit metadata heap threaded
through the enumeration loop. -/
def docsToOracleDataRef (now : String) :
    List ChunkRef → Nat → Nat → MetaStore → List OracleRecordRef × MetaStore
  | [], _, _, st => ([], st)
  | c :: cs, idx, ctr, st =>
    let step := oracleRecordOfRef now idx ctr st c
    let rest := docsToOracleDataRef now cs (idx + 1) step.2.2 step.2.1
    (step.1 :: rest.1, rest.2)

/-- A two-document collection input (texts `"A"` and `"B"`, no
pre-existing metadata). -/
def twoDocInput : DataInputs :=
  .collection [.data { data := [("text", MVal.s "A")] },
               .data { data := [("text", MVal.s "B")] }]

/-- Dot-separator parameters with the default sizes. -/
def dotParams : SplitParams := { separator := "." }

/-- A single-record input whose text `"A.B"` splits into two chunks
under `unitParams`; its metadata carries no `source_id`. -/
def abInput : DataInputs := .single { data := [("text", MVal.s "A.B")] }

/-- `separator=".", chunk_size=1, chunk_overlap=0` (the spec's scenario
parameters). -/
def unitParams : SplitParams := { chunk_size := 1, chunk_overlap := 0, separator := "." }

/-- A collection input holding one element that is not a structured
record next to one valid `Data` record. -/
def mixedInput : DataInputs :=
  .collection [.other, .data { data := [("text", MVal.s "hello")] }]

/-- The spec's scenario input: one record with text `"A.B.C"`. -/
def abcInput : DataInputs := .single { data := [("text", MVal.s "A.B.C")] }

/-- A one-record input with text `"hello"`. -/
def helloInput : DataInputs := .single { data := [("text", MVal.s "hello")] }

/-! ### Dictionary lemmas -/

theorem dictGet?_dictSet_self (m : Metadata) (k : String) (v : MVal) :
    dictGet? (dictSet m k v) k = some v := by
  induction m with
  | nil => simp [dictSet, dictGet?]
  | cons p m ih =>
    by_cases h : p.1 = k
    · simp [dictSet, dictGet?, h]
    · simp [dictSet, dictGet?, h, ih]

theorem dictGet?_dictSet_ne (m : Metadata) (k k' : String) (v : MVal) (h : k' ≠ k) :
    dictGet? (dictSet m k v) k' = dictGet? m k' := by
  have h' : k ≠ k' := h.symm
  induction m with
  | nil => simp [dictSet, dictGet?, h']
  | cons p m ih =>
    by_cases hp : p.1 = k
    · simp [dictSet, dictGet?, hp, h']
    · simp [dictSet, dictGet?, hp, ih]

/-! ### Record-mapper lemmas -/

theorem docsToOracleData_length (now : String) (cs : List Document) :
    ∀ idx ctr, (docsToOracleData now cs idx ctr).length = cs.length := by
  induction cs with
  | nil => intro idx ctr; rfl
  | cons c cs ih => intro idx ctr; simp [docsToOracleData, ih]

theorem docsToOracleData_getD (now : String) (cs : List Document) :
    ∀ idx ctr k, k < cs.length →
      (docsToOracleData now cs idx ctr).getD k defaultRecord =
        (oracleRecordOf now (idx + k) (ctr + 2 * k) (cs.getD k defaultDoc)).1 := by
  induction cs with
  | nil => intro idx ctr k h; simp at h
  | cons c cs ih =>
    intro idx ctr k h
    cases k with
    | zero => simp [docsToOracleData]
    | succ k =>
      have hk : k < cs.length := by simpa using h
      have hstep : (oracleRecordOf now idx ctr c).2 = ctr + 2 := rfl
      have := ih (idx + 1) (ctr + 2) k hk
      simp only [docsToOracleData, List.getD_cons_succ, hstep, this]
      have h1 : idx + 1 + k = idx + (k + 1) := by omega
      have h2 : ctr + 2 + 2 * k = ctr + 2 * (k + 1) := by omega
      rw [h1, h2]

/-! ### JSON serialization round-trip -/

theorem parseStrAux_esc (S : List Char) :
    ∀ rest, parseStrAux (escChars S ++ '"' :: rest) = some (S, rest) := by
  induction S with
  | nil =>
    intro rest
    show parseStrAux ('"' :: rest) = some ([], rest)
    rw [parseStrAux.eq_def]
    simp
  | cons c cs ih =>
    intro rest
    by_cases h : c = '"' ∨ c = '\\'
    · have hesc : escChars (c :: cs) = '\\' :: c :: escChars cs := by
        rw [escChars, if_pos h]
      rw [hesc, List.cons_append, List.cons_append, parseStrAux.eq_def]
      simp [ih]
    · obtain ⟨h1, h2⟩ := not_or.mp h
      have hesc : escChars (c :: cs) = c :: escChars cs := by
        rw [escChars, if_neg h]
      rw [hesc, List.cons_append, parseStrAux.eq_def]
      simp [h1, h2, ih]

theorem digit10_val : ∀ d, d < 10 → digitVal (digitChar10 d) = d ∧
    isDigitC (digitChar10 d) = true := by decide

theorem decValFrom_append (xs : List Char) :
    ∀ a ys, decValFrom a (xs ++ ys) = decValFrom (decValFrom a xs) ys := by
  induction xs with
  | nil => intro a ys; rfl
  | cons c cs ih =>
    intro a ys
    have h1 : decValFrom a ((c :: cs) ++ ys) = decValFrom (a * 10 + digitVal c) (cs ++ ys) := rfl
    have h2 : decValFrom a (c :: cs) = decValFrom (a * 10 + digitVal c) cs := rfl
    rw [h1, h2, ih]

theorem natDecF_spec (fuel : Nat) : ∀ n, n < fuel →
    (∀ a, decValFrom a (natDecF fuel n) = a * 10 ^ (natDecF fuel n).length + n) ∧
    (∀ c ∈ natDecF fuel n, isDigitC c = true) ∧ natDecF fuel n ≠ [] := by
  induction fuel with
  | zero => intro n h; omega
  | succ fuel ih =>
    intro n h
    have e : natDecF (fuel + 1) n =
        if n < 10 then [digitChar10 n]
        else natDecF fuel (n / 10) ++ [digitChar10 (n % 10)] := rfl
    by_cases h10 : n < 10
    · rw [e, if_pos h10]
      refine ⟨fun a => ?_, ?_, by simp⟩
      · have e1 : decValFrom a [digitChar10 n] = a * 10 + digitVal (digitChar10 n) := rfl
        rw [e1, (digit10_val n h10).1, List.length_singleton, pow_one]
      · intro c hc
        rw [List.mem_singleton] at hc
        rw [hc]
        exact (digit10_val n h10).2
    · have hdiv : n / 10 < fuel := by
        have : n / 10 < n := Nat.div_lt_self (by omega) (by omega)
        omega
      obtain ⟨hval, hdig, hne⟩ := ih (n / 10) hdiv
      have hmod : n % 10 < 10 := Nat.mod_lt _ (by omega)
      rw [e, if_neg h10]
      refine ⟨fun a => ?_, ?_, by simp⟩
      · have e1 : ∀ b, decValFrom b [digitChar10 (n % 10)] =
            b * 10 + digitVal (digitChar10 (n % 10)) := fun b => rfl
        rw [decValFrom_append, hval, e1, (digit10_val _ hmod).1,
          List.length_append, List.length_singleton]
        have key : n / 10 * 10 + n % 10 = n := by omega
        calc (a * 10 ^ (natDecF fuel (n / 10)).length + n / 10) * 10 + n % 10
            = a * (10 ^ (natDecF fuel (n / 10)).length * 10) +
              (n / 10 * 10 + n % 10) := by ring
          _ = a * 10 ^ ((natDecF fuel (n / 10)).length + 1) + n := by
              rw [key, pow_succ]
      · intro c hc
        rw [List.mem_append, List.mem_singleton] at hc
        rcases hc with hc | rfl
        · exact hdig c hc
        · exact (digit10_val _ hmod).2

theorem natDec_spec (n : Nat) :
    decValFrom 0 (natDec n) = n ∧ (∀ c ∈ natDec n, isDigitC c = true) ∧ natDec n ≠ [] := by
  obtain ⟨hval, hdig, hne⟩ := natDecF_spec (n + 1) n (by omega)
  exact ⟨by simpa using hval 0, hdig, hne⟩

theorem string_mk_data (s : String) : String.mk s.data = s := rfl

theorem takeWhile_digit_prefix (xs : List Char) (hxs : ∀ c ∈ xs, isDigitC c = true) :
    ∀ rest, (∀ c, rest.head? = some c → isDigitC c = false) →
      ((xs ++ rest).takeWhile isDigitC = xs ∧ (xs ++ rest).dropWhile isDigitC = rest) := by
  induction xs with
  | nil =>
    intro rest hrest
    cases rest with
    | nil => simp
    | cons c t =>
      have hc : isDigitC c = false := hrest c rfl
      simp [List.takeWhile_cons, List.dropWhile_cons, hc]
  | cons c cs ih =>
    intro rest hrest
    have hc : isDigitC c = true := hxs c (by simp)
    have hcs : ∀ x ∈ cs, isDigitC x = true := fun x hx => hxs x (by simp [hx])
    obtain ⟨ht, hd⟩ := ih hcs rest hrest
    simp [List.takeWhile_cons, List.dropWhile_cons, hc, ht, hd]

theorem parseNatC_natDec (n : Nat) (rest : List Char)
    (hrest : ∀ c, rest.head? = some c → isDigitC c = false) :
    parseNatC (natDec n ++ rest) = some (n, rest) := by
  obtain ⟨hval, hdig, hne⟩ := natDec_spec n
  obtain ⟨ht, hd⟩ := takeWhile_digit_prefix (natDec n) hdig rest hrest
  simp only [parseNatC, ht, hd, hne, if_false, hval]

theorem digit_ne_quote_dash {c : Char} (hc : isDigitC c = true) :
    c ≠ '"' ∧ c ≠ '-' := by
  constructor <;> intro h <;> rw [h] at hc <;> exact absurd hc (by decide)

theorem parseVal_renderVal (v : MVal) (rest : List Char)
    (hrest : ∀ c, rest.head? = some c → isDigitC c = false) :
    parseVal (renderVal v ++ rest) = some (v, rest) := by
  cases v with
  | s str =>
    have hshape : renderVal (MVal.s str) ++ rest =
        '"' :: (escChars str.data ++ '"' :: rest) := by
      simp [renderVal]
    rw [hshape, parseVal.eq_def]
    simp [parseStrAux_esc, string_mk_data]
  | i v =>
    by_cases hv : v < 0
    · have hshape : renderVal (MVal.i v) ++ rest =
          '-' :: (natDec v.natAbs ++ rest) := by
        simp [renderVal, intChars, hv]
      rw [hshape]
      have h1 : ('-' : Char) ≠ '"' := by decide
      have e : parseVal ('-' :: (natDec v.natAbs ++ rest)) =
          if ('-' : Char) = '"' then
            (parseStrAux (natDec v.natAbs ++ rest)).map
              (fun p => (MVal.s (String.mk p.1), p.2))
          else if ('-' : Char) = '-' then
            (parseNatC (natDec v.natAbs ++ rest)).map
              (fun p => (MVal.i (-(p.1 : Int)), p.2))
          else (parseNatC ('-' :: (natDec v.natAbs ++ rest))).map
              (fun p => (MVal.i (p.1 : Int), p.2)) := rfl
      rw [e, if_neg h1, if_pos rfl, parseNatC_natDec v.natAbs rest hrest]
      have e2 : Option.map (fun p : Nat × List Char => (MVal.i (-(p.1 : Int)), p.2))
          (some (v.natAbs, rest)) = some (MVal.i (-(v.natAbs : Int)), rest) := rfl
      have hv' : -(v.natAbs : Int) = v := by omega
      rw [e2, hv']
    · have hshape : renderVal (MVal.i v) ++ rest = natDec v.toNat ++ rest := by
        simp [renderVal, intChars, hv]
      obtain ⟨hval, hdig, hne⟩ := natDec_spec v.toNat
      obtain ⟨c, t, hct⟩ := List.exists_cons_of_ne_nil hne
      have hdc : isDigitC c = true := hdig c (by rw [hct]; simp)
      obtain ⟨hq, hdash⟩ := digit_ne_quote_dash hdc
      have hshape2 : natDec v.toNat ++ rest = c :: (t ++ rest) := by
        rw [hct]; simp
      rw [hshape, hshape2, parseVal.eq_def]
      simp only [hq, hdash, if_false]
      rw [← List.cons_append, ← hct, parseNatC_natDec v.toNat rest hrest]
      have : ((v.toNat : Nat) : Int) = v := by omega
      simp [this]

theorem parseEntriesF_renderKV (k : String) (v : MVal) (fuel : Nat) (tail : List Char)
    (htail : ∀ c, tail.head? = some c → isDigitC c = false) :
    parseEntriesF (fuel + 1) (renderKV k v ++ tail) = entryStep k v fuel tail := by
  have hshape : renderKV k v ++ tail =
      '"' :: (escChars k.data ++ '"' :: ':' :: ' ' :: (renderVal v ++ tail)) := by
    simp [renderKV]
  rw [hshape, parseEntriesF.eq_def]
  simp only [parseStrAux_esc, string_mk_data, parseVal_renderVal v tail htail]
  rw [if_pos trivial]
  cases tail with
  | nil => rfl
  | cons c' cs4 => rfl

theorem renderEntries_parse (m : Metadata) : ∀ fuel, m.length ≤ fuel → m ≠ [] →
    parseEntriesF fuel (renderEntries m) = some m := by
  induction m with
  | nil => intro fuel _ hne; exact absurd rfl hne
  | cons e m' ih =>
    intro fuel hlen _
    obtain ⟨k, v⟩ := e
    cases fuel with
    | zero => simp at hlen
    | succ fuel =>
      cases m' with
      | nil =>
        have hr : renderEntries [(k, v)] = renderKV k v ++ [rbraceC] := rfl
        rw [hr, parseEntriesF_renderKV k v fuel [rbraceC]
          (by intro c hc
              have hcrb : rbraceC = c := by simpa using hc
              rw [← hcrb]; decide)]
        simp [entryStep]
      | cons e2 m'' =>
        have hr : renderEntries ((k, v) :: e2 :: m'') =
            renderKV k v ++ ',' :: ' ' :: renderEntries (e2 :: m'') := rfl
        rw [hr, parseEntriesF_renderKV k v fuel (',' :: ' ' :: renderEntries (e2 :: m''))
          (by intro c hc
              have hcc : (',' : Char) = c := by simpa using hc
              rw [← hcc]; decide)]
        have hm : (e2 :: m'').length ≤ fuel := by simpa using hlen
        have hne1 : (',' : Char) ≠ rbraceC := by decide
        simp [entryStep, hne1, ih fuel hm (by simp)]

theorem renderEntries_length (m : Metadata) : m.length ≤ (renderEntries m).length := by
  induction m with
  | nil => simp [renderEntries]
  | cons e m' ih =>
    obtain ⟨k, v⟩ := e
    cases m' with
    | nil => simp [renderEntries]
    | cons e2 m'' =>
      have hr : renderEntries ((k, v) :: e2 :: m'') =
          renderKV k v ++ ',' :: ' ' :: renderEntries (e2 :: m'') := rfl
      have ih' : m''.length + 1 ≤ (renderEntries (e2 :: m'')).length := by simpa using ih
      rw [hr]
      simp only [List.length_cons, List.length_append]
      omega

theorem parseMeta_renderMeta (m : Metadata) : parseMeta (renderMeta m) = some m := by
  have e : parseMeta (renderMeta m) =
      parseObjBody ((renderEntries m).length + 1) (renderEntries m) := rfl
  rw [e]
  cases m with
  | nil =>
    have h0 : renderEntries ([] : Metadata) = [rbraceC] := rfl
    rw [h0]
    simp [parseObjBody]
  | cons e1 m' =>
    obtain ⟨k, v⟩ := e1
    have hq : ∃ T, renderEntries ((k, v) :: m') = '"' :: T := by
      cases m' with
      | nil =>
        refine ⟨escChars k.data ++ '"' :: ':' :: ' ' :: (renderVal v ++ [rbraceC]), ?_⟩
        simp [renderEntries, renderKV]
      | cons e2 m'' =>
        refine ⟨escChars k.data ++ '"' :: ':' :: ' ' ::
          (renderVal v ++ ',' :: ' ' :: renderEntries (e2 :: m'')), ?_⟩
        simp [renderEntries, renderKV]
    obtain ⟨T, hT⟩ := hq
    have hlen : ((k, v) :: m').length ≤ (renderEntries ((k, v) :: m')).length :=
      renderEntries_length _
    have hob : ∀ F, parseObjBody F ('"' :: T) = parseEntriesF F ('"' :: T) := by
      intro F
      have e2 : parseObjBody F ('"' :: T) =
          if ('"' : Char) = rbraceC then (if T = [] then some [] else none)
          else parseEntriesF F ('"' :: T) := rfl
      rw [e2, if_neg (by decide)]
    rw [hT, hob, ← hT]
    exact renderEntries_parse _ _ (by omega) (by simp)

/-! ### UUID lemmas -/

theorem hexDigit_facts : ∀ r, r < 16 →
    (isHexC (hexDigitC r) = true ∧ hexDigitC r ≠ '-') := by decide

theorem hexDigit_inj : ∀ a, a < 16 → ∀ b, b < 16 → hexDigitC a = hexDigitC b → a = b := by
  decide

theorem hexChars_length (l : Nat) : ∀ n, (hexChars l n).length = l := by
  induction l with
  | zero => intro n; rfl
  | succ l ih =>
    intro n
    have e : hexChars (l + 1) n = hexChars l (n / 16) ++ [hexDigitC (n % 16)] := rfl
    rw [e, List.length_append, ih, List.length_singleton]

theorem hexChars_all_hex (l : Nat) : ∀ n, (hexChars l n).all isHexC = true := by
  induction l with
  | zero => intro n; rfl
  | succ l ih =>
    intro n
    have e : hexChars (l + 1) n = hexChars l (n / 16) ++ [hexDigitC (n % 16)] := rfl
    rw [e, List.all_append, ih]
    have := (hexDigit_facts (n % 16) (Nat.mod_lt _ (by omega))).1
    simp [this]

theorem hexChars_no_dash (l : Nat) : ∀ n c, c ∈ hexChars l n → c ≠ '-' := by
  induction l with
  | zero => intro n c hc; simp [hexChars] at hc
  | succ l ih =>
    intro n c hc
    have e : hexChars (l + 1) n = hexChars l (n / 16) ++ [hexDigitC (n % 16)] := rfl
    rw [e, List.mem_append, List.mem_singleton] at hc
    rcases hc with hc | rfl
    · exact ih _ c hc
    · exact (hexDigit_facts (n % 16) (Nat.mod_lt _ (by omega))).2

theorem hexChars_inj (l : Nat) : ∀ x y, x < 16 ^ l → y < 16 ^ l →
    hexChars l x = hexChars l y → x = y := by
  induction l with
  | zero => intro x y hx hy _; simp [pow_zero] at hx hy; omega
  | succ l ih =>
    intro x y hx hy heq
    have ex : hexChars (l + 1) x = hexChars l (x / 16) ++ [hexDigitC (x % 16)] := rfl
    have ey : hexChars (l + 1) y = hexChars l (y / 16) ++ [hexDigitC (y % 16)] := rfl
    rw [ex, ey] at heq
    obtain ⟨h1, h2⟩ := List.append_inj heq (by rw [hexChars_length, hexChars_length])
    have hd : x % 16 = y % 16 := by
      have hh := List.head_eq_of_cons_eq h2
      exact hexDigit_inj _ (Nat.mod_lt _ (by omega)) _ (Nat.mod_lt _ (by omega)) hh
    have hxd : x / 16 < 16 ^ l := by
      rw [Nat.div_lt_iff_lt_mul (by omega)]
      calc x < 16 ^ (l + 1) := hx
        _ = 16 ^ l * 16 := by rw [pow_succ]
    have hyd : y / 16 < 16 ^ l := by
      rw [Nat.div_lt_iff_lt_mul (by omega)]
      calc y < 16 ^ (l + 1) := hy
        _ = 16 ^ l * 16 := by rw [pow_succ]
    have hq := ih _ _ hxd hyd h1
    omega

theorem splitDash_append (xs : List Char) (hxs : ∀ c ∈ xs, c ≠ '-') :
    ∀ ys, splitDash (xs ++ '-' :: ys) = xs :: splitDash ys := by
  induction xs with
  | nil =>
    intro ys
    have e : splitDash ('-' :: ys) =
        if ('-' : Char) = '-' then [] :: splitDash ys
        else match splitDash ys with
          | g :: gs => ('-' :: g) :: gs
          | [] => [['-']] := rfl
    rw [List.nil_append, e, if_pos rfl]
  | cons c cs ih =>
    intro ys
    have hc : c ≠ '-' := hxs c (by simp)
    have hcs : ∀ x ∈ cs, x ≠ '-' := fun x hx => hxs x (by simp [hx])
    have e : splitDash (c :: (cs ++ '-' :: ys)) =
        if c = '-' then [] :: splitDash (cs ++ '-' :: ys)
        else match splitDash (cs ++ '-' :: ys) with
          | g :: gs => (c :: g) :: gs
          | [] => [[c]] := rfl
    rw [List.cons_append, e, if_neg hc, ih hcs ys]

theorem splitDash_no_dash (xs : List Char) (hxs : ∀ c ∈ xs, c ≠ '-') :
    splitDash xs = [xs] := by
  induction xs with
  | nil => rfl
  | cons c cs ih =>
    have hc : c ≠ '-' := hxs c (by simp)
    have hcs : ∀ x ∈ cs, x ≠ '-' := fun x hx => hxs x (by simp [hx])
    have e : splitDash (c :: cs) =
        if c = '-' then [] :: splitDash cs
        else match splitDash cs with
          | g :: gs => (c :: g) :: gs
          | [] => [[c]] := rfl
    rw [e, if_neg hc, ih hcs]

theorem uuidFromNat_data (n : Nat) : (uuidFromNat n).data =
    hexChars 8 (n % 16 ^ 30 / 16 ^ 22) ++ '-' ::
      (hexChars 4 (n % 16 ^ 30 / 16 ^ 18 % 16 ^ 4) ++ '-' :: '4' ::
        (hexChars 3 (n % 16 ^ 30 / 16 ^ 15 % 16 ^ 3) ++ '-' :: '8' ::
          (hexChars 3 (n % 16 ^ 30 / 16 ^ 12 % 16 ^ 3) ++ '-' ::
            hexChars 12 (n % 16 ^ 30 % 16 ^ 12)))) := rfl

theorem splitDash_uuid (n : Nat) : splitDash (uuidFromNat n).data =
    [hexChars 8 (n % 16 ^ 30 / 16 ^ 22),
     hexChars 4 (n % 16 ^ 30 / 16 ^ 18 % 16 ^ 4),
     '4' :: hexChars 3 (n % 16 ^ 30 / 16 ^ 15 % 16 ^ 3),
     '8' :: hexChars 3 (n % 16 ^ 30 / 16 ^ 12 % 16 ^ 3),
     hexChars 12 (n % 16 ^ 30 % 16 ^ 12)] := by
  have h4 : ∀ c ∈ '4' :: hexChars 3 (n % 16 ^ 30 / 16 ^ 15 % 16 ^ 3), c ≠ '-' := by
    intro c hc
    rcases List.mem_cons.mp hc with rfl | hc
    · decide
    · exact hexChars_no_dash _ _ c hc
  have h8 : ∀ c ∈ '8' :: hexChars 3 (n % 16 ^ 30 / 16 ^ 12 % 16 ^ 3), c ≠ '-' := by
    intro c hc
    rcases List.mem_cons.mp hc with rfl | hc
    · decide
    · exact hexChars_no_dash _ _ c hc
  rw [uuidFromNat_data]
  rw [splitDash_append _ (hexChars_no_dash 8 _)]
  rw [splitDash_append _ (hexChars_no_dash 4 _)]
  rw [← List.cons_append, splitDash_append _ h4]
  rw [← List.cons_append, splitDash_append _ h8]
  rw [splitDash_no_dash _ (hexChars_no_dash 12 _)]

theorem uuid_valid (n : Nat) : isValidUUIDv4 (uuidFromNat n) = true := by
  unfold isValidUUIDv4
  rw [splitDash_uuid]
  have hx4 : isHexC '4' = true := by decide
  have hx8 : isHexC '8' = true := by decide
  simp [hexChars_length, hexChars_all_hex, List.all_append, hx4, hx8]

theorem uuidFromNat_inj (n n' : Nat) (hn : n < 16 ^ 30) (hn' : n' < 16 ^ 30)
    (heq : uuidFromNat n = uuidFromNat n') : n = n' := by
  have hdata := congrArg String.data heq
  rw [uuidFromNat_data, uuidFromNat_data] at hdata
  have hm : n % 16 ^ 30 = n := Nat.mod_eq_of_lt hn
  have hm' : n' % 16 ^ 30 = n' := Nat.mod_eq_of_lt hn'
  rw [hm, hm'] at hdata
  obtain ⟨h1, h2⟩ := List.append_inj hdata (by rw [hexChars_length, hexChars_length])
  have h2' := List.tail_eq_of_cons_eq h2
  obtain ⟨h3, h4⟩ := List.append_inj h2' (by rw [hexChars_length, hexChars_length])
  have h4' := List.tail_eq_of_cons_eq (List.tail_eq_of_cons_eq h4)
  obtain ⟨h5, h6⟩ := List.append_inj h4' (by rw [hexChars_length, hexChars_length])
  have h6' := List.tail_eq_of_cons_eq (List.tail_eq_of_cons_eq h6)
  obtain ⟨h7, h8⟩ := List.append_inj h6' (by rw [hexChars_length, hexChars_length])
  have h8' := List.tail_eq_of_cons_eq h8
  have hb1 : n / 16 ^ 22 < 16 ^ 8 := by
    rw [Nat.div_lt_iff_lt_mul (by positivity)]
    calc n < 16 ^ 30 := hn
      _ = 16 ^ 8 * 16 ^ 22 := by norm_num
  have hb1' : n' / 16 ^ 22 < 16 ^ 8 := by
    rw [Nat.div_lt_iff_lt_mul (by positivity)]
    calc n' < 16 ^ 30 := hn'
      _ = 16 ^ 8 * 16 ^ 22 := by norm_num
  have f1 := hexChars_inj 8 _ _ hb1 hb1' h1
  have f2 := hexChars_inj 4 _ _ (Nat.mod_lt _ (by positivity))
    (Nat.mod_lt _ (by positivity)) h3
  have f3 := hexChars_inj 3 _ _ (Nat.mod_lt _ (by positivity))
    (Nat.mod_lt _ (by positivity)) h5
  have f4 := hexChars_inj 3 _ _ (Nat.mod_lt _ (by positivity))
    (Nat.mod_lt _ (by positivity)) h7
  have f5 := hexChars_inj 12 _ _ (Nat.mod_lt _ (by positivity))
    (Nat.mod_lt _ (by positivity)) h8'
  have e30 : (16 : Nat) ^ 30 = 1329227995784915872903807060280344576 := by norm_num
  have e22 : (16 : Nat) ^ 22 = 309485009821345068724781056 := by norm_num
  have e18 : (16 : Nat) ^ 18 = 4722366482869645213696 := by norm_num
  have e15 : (16 : Nat) ^ 15 = 1152921504606846976 := by norm_num
  have e12 : (16 : Nat) ^ 12 = 281474976710656 := by norm_num
  have e4 : (16 : Nat) ^ 4 = 65536 := by norm_num
  have e3 : (16 : Nat) ^ 3 = 4096 := by norm_num
  rw [e22] at f1
  rw [e18, e4] at f2
  rw [e15, e3] at f3
  rw [e12, e3] at f4
  rw [e12] at f5
  rw [e30] at hn hn'
  omega

/-! ### Pipeline helper lemmas -/

theorem oracleRecordOf_fields (now : String) (idx ctr : Nat) (doc : Document) :
    (oracleRecordOf now idx ctr doc).1.id = uuidFromNat ctr ∧
    (oracleRecordOf now idx ctr doc).1.text = doc.page_content ∧
    (oracleRecordOf now idx ctr doc).1.source_metadata =
      updatedMeta doc.metadata idx ctr ∧
    (oracleRecordOf now idx ctr doc).1.metadata =
      renderMeta (updatedMeta doc.metadata idx ctr) :=
  ⟨rfl, rfl, rfl, rfl⟩

theorem updatedMeta_chunk_index (md0 : Metadata) (idx ctr : Nat) :
    dictGet? (updatedMeta md0 idx ctr) "chunk_index" = some (MVal.i (idx : Int)) := by
  unfold updatedMeta
  rw [dictGet?_dictSet_ne _ _ _ _ (by decide)]
  exact dictGet?_dictSet_self _ _ _

theorem updatedMeta_source_id (md0 : Metadata) (idx ctr : Nat) :
    dictGet? (updatedMeta md0 idx ctr) "source_id" =
      some ((dictGet? md0 "source_id").getD (MVal.s (uuidFromNat (ctr + 1)))) := by
  unfold updatedMeta
  rw [dictGet?_dictSet_self]
  rw [dictGet?_dictSet_ne _ _ _ _ (by decide)]

theorem updatedMeta_keys (md0 : Metadata) (idx ctr : Nat) (key : String)
    (h : (dictGet? md0 key).isSome = true) :
    (dictGet? (updatedMeta md0 idx ctr) key).isSome = true := by
  unfold updatedMeta
  by_cases h1 : key = "source_id"
  · rw [h1, dictGet?_dictSet_self]; rfl
  · rw [dictGet?_dictSet_ne _ _ _ _ h1]
    by_cases h2 : key = "chunk_index"
    · rw [h2, dictGet?_dictSet_self]; rfl
    · rw [dictGet?_dictSet_ne _ _ _ _ h2]
      exact h

theorem splitText_ok_inv (inputs : DataInputs) (p : SplitParams) (ctr : Nat)
    (now : String) (recs : List OracleRecord)
    (hr : splitText inputs p ctr now = .ok recs) :
    ∃ chunks, splitTextBase inputs p = .ok chunks ∧
      recs = docsToOracleData now chunks 0 ctr := by
  unfold splitText at hr
  rcases hbase : splitTextBase inputs p with e | chunks
  · rw [hbase] at hr; cases hr
  · rw [hbase] at hr
    simp only [Except.ok.injEq] at hr
    exact ⟨chunks, rfl, hr.symm⟩

theorem filterMap_getData_filter (items : List InputElem) :
    (items.filter InputElem.isData).filterMap InputElem.getData? =
      items.filterMap InputElem.getData? := by
  induction items with
  | nil => rfl
  | cons e items ih =>
    cases e <;> simp [InputElem.isData, InputElem.getData?, ih]

theorem oracleRecordOfRef_parts (now : String) (idx ctr : Nat) (st : MetaStore)
    (doc : ChunkRef) :
    (oracleRecordOfRef now idx ctr st doc).1.source_metadata = doc.metaRef ∧
    (oracleRecordOfRef now idx ctr st doc).1.metadata =
      renderMeta (updatedMeta (storeGet st doc.metaRef) idx ctr) ∧
    (oracleRecordOfRef now idx ctr st doc).2.1 =
      st.set doc.metaRef (updatedMeta (storeGet st doc.metaRef) idx ctr) ∧
    (oracleRecordOfRef now idx ctr st doc).2.2 = ctr + 2 :=
  ⟨rfl, rfl, rfl, rfl⟩

theorem storeGet_set_ne (st : MetaStore) (i j : Nat) (m : Metadata) (h : i ≠ j) :
    storeGet (st.set i m) j = storeGet st j := by
  unfold storeGet
  simp [List.getD]
  rw [List.getElem?_set_ne h]

theorem storeGet_set_self (st : MetaStore) (i : Nat) (m : Metadata) (h : i < st.length) :
    storeGet (st.set i m) i = m := by
  unfold storeGet
  simp [List.getD, List.getElem?_set_self, h]

theorem docsToOracleDataRef_preserve (now : String) (ds : List ChunkRef) :
    ∀ idx ctr st r, (∀ d ∈ ds, d.metaRef ≠ r) →
      storeGet (docsToOracleDataRef now ds idx ctr st).2 r = storeGet st r := by
  induction ds with
  | nil => intro idx ctr st r _; rfl
  | cons c cs ih =>
    intro idx ctr st r hr
    have hc : c.metaRef ≠ r := hr c (by simp)
    have hcs : ∀ d ∈ cs, d.metaRef ≠ r := fun d hd => hr d (by simp [hd])
    have e : (docsToOracleDataRef now (c :: cs) idx ctr st).2 =
        (docsToOracleDataRef now cs (idx + 1) (ctr + 2)
          (st.set c.metaRef (updatedMeta (storeGet st c.metaRef) idx ctr))).2 := rfl
    rw [e, ih (idx + 1) (ctr + 2) _ r hcs, storeGet_set_ne _ _ _ _ hc]

theorem docsToOracleDataRef_spec (now : String) (ds : List ChunkRef) :
    ∀ idx ctr st, (ds.map ChunkRef.metaRef).Nodup →
      (∀ d ∈ ds, d.metaRef < st.length) →
      ∀ k, k < ds.length →
        ((docsToOracleDataRef now ds idx ctr st).1.getD k defaultRecordRef).source_metadata =
            (ds.getD k defaultChunkRef).metaRef ∧
        storeGet (docsToOracleDataRef now ds idx ctr st).2
            ((ds.getD k defaultChunkRef).metaRef) =
          updatedMeta (storeGet st ((ds.getD k defaultChunkRef).metaRef))
            (idx + k) (ctr + 2 * k) ∧
        ((docsToOracleDataRef now ds idx ctr st).1.getD k defaultRecordRef).metadata =
          renderMeta (updatedMeta (storeGet st ((ds.getD k defaultChunkRef).metaRef))
            (idx + k) (ctr + 2 * k)) := by
  induction ds with
  | nil => intro idx ctr st _ _ k hk; simp at hk
  | cons c cs ih =>
    intro idx ctr st hnodup hb k hk
    rw [List.map_cons] at hnodup
    obtain ⟨hnd1, hnd2⟩ := List.nodup_cons.mp hnodup
    have e1 : (docsToOracleDataRef now (c :: cs) idx ctr st).1 =
        (oracleRecordOfRef now idx ctr st c).1 ::
          (docsToOracleDataRef now cs (idx + 1) (ctr + 2)
            (st.set c.metaRef (updatedMeta (storeGet st c.metaRef) idx ctr))).1 := rfl
    have e2 : (docsToOracleDataRef now (c :: cs) idx ctr st).2 =
        (docsToOracleDataRef now cs (idx + 1) (ctr + 2)
          (st.set c.metaRef (updatedMeta (storeGet st c.metaRef) idx ctr))).2 := rfl
    cases k with
    | zero =>
      have hget0 : ((c :: cs).getD 0 defaultChunkRef) = c := rfl
      have hpres : ∀ d ∈ cs, d.metaRef ≠ c.metaRef := by
        intro d hd heqr
        exact hnd1 (heqr ▸ List.mem_map_of_mem ChunkRef.metaRef hd)
      refine ⟨by rw [e1]; rfl, ?_, by rw [e1]; rfl⟩
      rw [e2, hget0]
      rw [docsToOracleDataRef_preserve now cs (idx + 1) (ctr + 2) _ c.metaRef hpres]
      have hcb : c.metaRef < st.length := hb c (by simp)
      rw [storeGet_set_self _ _ _ hcb]
      norm_num
    | succ k =>
      have hk' : k < cs.length := by simpa using hk
      have hb' : ∀ d ∈ cs, d.metaRef <
          (st.set c.metaRef (updatedMeta (storeGet st c.metaRef) idx ctr)).length := by
        intro d hd
        rw [List.length_set]
        exact hb d (by simp [hd])
      obtain ⟨ihs, ihm, ihj⟩ := ih (idx + 1) (ctr + 2) _ hnd2 hb' k hk'
      have hgetk : ((c :: cs).getD (k + 1) defaultChunkRef) = cs.getD k defaultChunkRef := by
        simp [List.getD_cons_succ]
      have hne : c.metaRef ≠ (cs.getD k defaultChunkRef).metaRef := by
        intro heqr
        have hmem : cs.getD k defaultChunkRef ∈ cs := by
          rw [List.getD_eq_getElem cs defaultChunkRef hk']
          exact List.getElem_mem hk'
        exact hnd1 (heqr ▸ List.mem_map_of_mem ChunkRef.metaRef hmem)
      have hsame : storeGet (st.set c.metaRef (updatedMeta (storeGet st c.metaRef) idx ctr))
          ((cs.getD k defaultChunkRef).metaRef) =
          storeGet st ((cs.getD k defaultChunkRef).metaRef) :=
        storeGet_set_ne _ _ _ _ hne
      have hidx : idx + 1 + k = idx + (k + 1) := by omega
      have hctr : ctr + 2 + 2 * k = ctr + 2 * (k + 1) := by omega
      refine ⟨?_, ?_, ?_⟩
      · rw [e1, List.getD_cons_succ, ihs, hgetk]
      · rw [e2, hgetk, ihm, hsame, hidx, hctr]
      · rw [e1, List.getD_cons_succ, ihj, hsame, hidx, hctr, hgetk]

/-! ### Claim theorems -/

/-- C4: an empty tabular (DataFrame) input makes the invocation fail with
the "DataFrame is empty" error (the spec's `EmptyInputError`), a
null/absent input makes it fail with the "No data inputs provided" error
(the spec's `InvalidInputError`); both are raised synchronously with no
records emitted, and the two error kinds are distinct. -/
theorem empty_and_absent_error_kinds (p : SplitParams) (ctr : Nat) (now : String) :
    splitText (.dataframe []) p ctr now = .error .emptyDataFrame ∧
    splitText .absent p ctr now = .error .noDataInputs ∧
    PipelineError.emptyDataFrame ≠ PipelineError.noDataInputs :=
  ⟨rfl, rfl, by decide⟩

/-- C7: separator resolution maps the literal `"/n"` to an actual newline
and `"/t"` to an actual tab, and on every other input it coincides with
the (spec-modelled) escape-sequence unescaping utility; being a total
function, it never fails and always returns a string. -/
theorem separator_resolution (s : String) :
    resolveSeparator "/n" = "\n" ∧ resolveSeparator "/t" = "\t" ∧
    (s ≠ "/n" → s ≠ "/t" → resolveSeparator s = unescapeString s) := by
  refine ⟨by decide, by decide, fun h1 h2 => ?_⟩
  unfold resolveSeparator fixSeparator
  rw [if_neg h1, if_neg h2]

/-- C7 witness: the theorem instantiated at the separator `"x"`. -/
theorem separator_resolution_witness :
    resolveSeparator "/n" = "\n" ∧ resolveSeparator "/t" = "\t" ∧
    resolveSeparator "x" = unescapeString "x" :=
  ⟨(separator_resolution "x").1, (separator_resolution "x").2.1,
    (separator_resolution "x").2.2 (by decide) (by decide)⟩

/-- C5: on the input consisting of one record with text `"A.B.C"`, with
`separator="."`, `chunk_size=1`, `chunk_overlap=0` and the discard
(`keep_separator=False`) policy, the pipeline emits exactly three records
whose texts are `"A"`, `"B"`, `"C"` in that order, carrying `chunk_index`
0, 1, 2 respectively. -/
theorem scenario_abc (ctr : Nat) (now : String) :
    ∃ recs, splitText abcInput unitParams ctr now = .ok recs ∧
      recs.map (fun r => r.text) = ["A", "B", "C"] ∧
      recs.map (fun r => dictGet? r.source_metadata "chunk_index") =
        [some (MVal.i 0), some (MVal.i 1), some (MVal.i 2)] :=
  ⟨_, rfl, rfl, rfl⟩

/-- C6: for every input whose normalization yields a non-empty document
list (and a splitter configuration the external splitter accepts), the
number of emitted records equals the sum over all documents of the
number of chunks the splitter produced for that document. -/
theorem record_count (inputs : DataInputs) (p : SplitParams) (ctr : Nat) (now : String)
    (docs : List Document) (hdocs : normalizeInputs inputs p.text_key = .ok docs)
    (_hne : docs ≠ []) (hov : p.chunk_overlap ≤ p.chunk_size) :
    ∃ recs, splitText inputs p ctr now = .ok recs ∧
      recs.length = (docs.map (fun d => (chunksOfDoc p d).length)).sum := by
  have h1 : splitTextBase inputs p = .ok ((docs.map (chunksOfDoc p)).flatten) := by
    unfold splitTextBase
    simp only [hdocs]
    rw [if_neg (by omega)]
  have h2 : splitText inputs p ctr now =
      .ok (docsToOracleData now ((docs.map (chunksOfDoc p)).flatten) 0 ctr) := by
    unfold splitText
    rw [h1]
  refine ⟨_, h2, ?_⟩
  rw [docsToOracleData_length, List.length_flatten, List.map_map]
  rfl

/-- C6 witness: the theorem instantiated at the one-record input with
text `"hello"` and the default parameters, where normalization yields
one document and the splitter one chunk. -/
theorem record_count_witness :
    ∃ recs, splitText helloInput {} 0 "T" = .ok recs ∧
      recs.length = ((((normalizeInputs helloInput ({} : SplitParams).text_key).toOption.getD
        []).map (fun d => (chunksOfDoc {} d).length)).sum) :=
  record_count helloInput {} 0 "T" _ (by decide) (by decide) (by decide)

/-- C1 counterexample: the claim "chunk_index restarts at 0 for every
source document" is false.  On the two-document input (texts `"A"` and
`"B"`, one chunk each) the second document's chunk group holds a record
with `chunk_index` 1, not 0: the enumeration runs globally across the
batch. -/
theorem chunk_index_restart_counterexample :
    ¬ (∀ gs, splitTextGrouped twoDocInput dotParams 0 "T" = Except.ok gs →
        ∀ g ∈ gs, ∀ j, ∀ hj : j < g.length,
          dictGet? ((g.get ⟨j, hj⟩).source_metadata) "chunk_index" =
            some (MVal.i (j : Int))) := by
  intro hcl
  have hok : splitTextGrouped twoDocInput dotParams 0 "T" =
      Except.ok ((splitTextGrouped twoDocInput dotParams 0 "T").toOption.getD []) := by
    decide
  have h0 := hcl _ hok
  have h1 := h0 (((splitTextGrouped twoDocInput dotParams 0 "T").toOption.getD []).get
      ⟨1, by decide⟩) (List.get_mem _ _ _) 0 (by decide)
  exact absurd h1 (by decide)

/-- C1 amended: within one invocation the `chunk_index` values stored in
the records' metadata are the contiguous ascending integers 0, 1, 2, …
across the whole flat batch of chunks (all documents together), not per
source document; they restart at 0 per document only when a single
document contributes chunks. -/
theorem chunk_index_global (inputs : DataInputs) (p : SplitParams) (ctr : Nat)
    (now : String) (recs : List OracleRecord)
    (hr : splitText inputs p ctr now = .ok recs) (k : Nat) (hk : k < recs.length) :
    dictGet? ((recs.getD k defaultRecord).source_metadata) "chunk_index" =
      some (MVal.i (k : Int)) := by
  obtain ⟨chunks, _, hrecs⟩ := splitText_ok_inv inputs p ctr now recs hr
  subst hrecs
  rw [docsToOracleData_length] at hk
  rw [docsToOracleData_getD now chunks 0 ctr k hk,
    (oracleRecordOf_fields now (0 + k) (ctr + 2 * k) (chunks.getD k defaultDoc)).2.2.1,
    updatedMeta_chunk_index]
  norm_num

/-- C1 amended witness: on the two-document input the record at position
1 of the flat batch carries `chunk_index` 1. -/
theorem chunk_index_global_witness :
    dictGet? ((((splitText twoDocInput dotParams 0 "T").toOption.getD []).getD 1
      defaultRecord).source_metadata) "chunk_index" = some (MVal.i 1) :=
  chunk_index_global twoDocInput dotParams 0 "T" _ (by decide) 1 (by decide)

/-- C2 counterexample: the claim "all records of one source document
share a single source_id when the metadata carries none" is false.  The
single-record input with text `"A.B"` under `separator=".",
chunk_size=1, chunk_overlap=0` yields one document whose metadata
carries no `source_id` and which splits into two chunks, and the two
emitted records carry two different `source_id` values (the `get`
default is a fresh UUID per chunk, and the chunks do not share a
metadata object). -/
theorem source_id_shared_counterexample :
    ¬ (∀ gs, splitTextGrouped abInput unitParams 0 "T" = Except.ok gs →
        ∀ g ∈ gs, ∀ j j', ∀ hj : j < g.length, ∀ hj' : j' < g.length,
          dictGet? ((g.get ⟨j, hj⟩).source_metadata) "source_id" =
            dictGet? ((g.get ⟨j', hj'⟩).source_metadata) "source_id") := by
  intro hcl
  have hok : splitTextGrouped abInput unitParams 0 "T" =
      Except.ok ((splitTextGrouped abInput unitParams 0 "T").toOption.getD []) := by
    decide
  have h0 := hcl _ hok
  have h1 := h0 (((splitTextGrouped abInput unitParams 0 "T").toOption.getD []).get
      ⟨0, by decide⟩) (List.get_mem _ _ _) 0 1 (by decide) (by decide)
  exact absurd h1 (by decide)

/-- C2 amended: each chunk whose own metadata lacks a `source_id`
receives its own freshly generated `source_id` (one fresh UUID per
chunk, so chunks of one document lacking `source_id` get pairwise
distinct values), while a chunk whose metadata already carries a
`source_id` reuses that existing value. -/
theorem source_id_per_chunk (now : String) (cs : List Document) (ctr : Nat) :
    (∀ k, k < cs.length →
      dictGet? (((docsToOracleData now cs 0 ctr).getD k defaultRecord).source_metadata)
          "source_id" =
        some ((dictGet? (cs.getD k defaultDoc).metadata "source_id").getD
          (MVal.s (uuidFromNat (ctr + 2 * k + 1))))) ∧
    (ctr + 2 * cs.length ≤ 16 ^ 30 →
      ∀ k k', k < cs.length → k' < cs.length → k ≠ k' →
        dictGet? (cs.getD k defaultDoc).metadata "source_id" = none →
        dictGet? (cs.getD k' defaultDoc).metadata "source_id" = none →
        dictGet? (((docsToOracleData now cs 0 ctr).getD k defaultRecord).source_metadata)
            "source_id" ≠
          dictGet? (((docsToOracleData now cs 0 ctr).getD k' defaultRecord).source_metadata)
            "source_id") := by
  have hpoint : ∀ k, k < cs.length →
      dictGet? (((docsToOracleData now cs 0 ctr).getD k defaultRecord).source_metadata)
          "source_id" =
        some ((dictGet? (cs.getD k defaultDoc).metadata "source_id").getD
          (MVal.s (uuidFromNat (ctr + 2 * k + 1)))) := by
    intro k hk
    rw [docsToOracleData_getD now cs 0 ctr k hk,
      (oracleRecordOf_fields now (0 + k) (ctr + 2 * k) (cs.getD k defaultDoc)).2.2.1,
      updatedMeta_source_id]
  refine ⟨hpoint, fun hbound k k' hk hk' hkk hn hn' heq => ?_⟩
  rw [hpoint k hk, hpoint k' hk', hn, hn'] at heq
  simp only [Option.getD_none, Option.some.injEq, MVal.s.injEq] at heq
  have h1 : ctr + 2 * k + 1 < 16 ^ 30 := by omega
  have h2 : ctr + 2 * k' + 1 < 16 ^ 30 := by omega
  have := uuidFromNat_inj _ _ h1 h2 heq
  omega

/-- C2 amended witness: on two chunks with empty metadata starting from
counter 0, the two records' `source_id`s are the distinct first and
third draws of the UUID supply. -/
theorem source_id_per_chunk_witness :
    dictGet? (((docsToOracleData "T" [{ page_content := "A", metadata := [] },
        { page_content := "B", metadata := [] }] 0 0).getD 0 defaultRecord).source_metadata)
        "source_id" = some (MVal.s (uuidFromNat 1)) ∧
    dictGet? (((docsToOracleData "T" [{ page_content := "A", metadata := [] },
        { page_content := "B", metadata := [] }] 0 0).getD 1 defaultRecord).source_metadata)
        "source_id" ≠
      dictGet? (((docsToOracleData "T" [{ page_content := "A", metadata := [] },
        { page_content := "B", metadata := [] }] 0 0).getD 0 defaultRecord).source_metadata)
        "source_id" := by
  constructor
  · have h := (source_id_per_chunk "T" [{ page_content := "A", metadata := [] },
      { page_content := "B", metadata := [] }] 0).1 0 (by decide)
    simpa using h
  · have h := (source_id_per_chunk "T" [{ page_content := "A", metadata := [] },
      { page_content := "B", metadata := [] }] 0).2 (by decide) 1 0 (by decide) (by decide)
      (by decide) (by decide) (by decide)
    exact h

/-- C3 counterexample: the claim "a non-empty sequence containing an
element that is not a valid structured record fails with
InvalidInputError" is false.  The collection holding one non-record
element next to one valid record raises no error at all: the list
comprehension's `isinstance` filter silently drops the invalid element
and the rest is processed. -/
theorem invalid_element_error_counterexample :
    ¬ (∀ (items : List InputElem) (p : SplitParams) (ctr : Nat) (now : String),
        items ≠ [] → (∃ e ∈ items, e.isData = false) →
        ∃ err, splitText (.collection items) p ctr now = .error err) := by
  intro hcl
  obtain ⟨err, herr⟩ := hcl
    [InputElem.other, InputElem.data { data := [("text", MVal.s "hello")] }] {} 0 "T"
    (by decide) ⟨InputElem.other, by decide, rfl⟩
  revert herr
  cases err <;> decide

/-- C3 amended: elements of a collection input that are not structured
records are silently dropped, and the invocation behaves exactly as if
it had been given only the valid records; the no-valid-data error is
raised only when no structured record remains. -/
theorem invalid_elements_filtered (items : List InputElem) (tk : String)
    (hne : items.filter InputElem.isData ≠ []) :
    normalizeInputs (.collection items) tk =
      normalizeInputs (.collection (items.filter InputElem.isData)) tk := by
  have hitems : items ≠ [] := by
    intro h
    rw [h] at hne
    exact hne rfl
  have e1 : normalizeInputs (.collection items) tk =
      (if items = [] then .error .noDataInputs else
        (if items.filterMap InputElem.getData? = [] then .error .noValidData
         else .ok ((items.filterMap InputElem.getData?).map DataRec.toLcDocument))) := rfl
  have e2 : normalizeInputs (.collection (items.filter InputElem.isData)) tk =
      (if items.filter InputElem.isData = [] then .error .noDataInputs else
        (if (items.filter InputElem.isData).filterMap InputElem.getData? = []
         then .error .noValidData
         else .ok (((items.filter InputElem.isData).filterMap
            InputElem.getData?).map DataRec.toLcDocument))) := rfl
  rw [e1, e2, if_neg hitems, if_neg hne, filterMap_getData_filter]

/-- C3 amended witness: the mixed collection (one non-record element, one
record) normalizes exactly as its record-only filtration does. -/
theorem invalid_elements_filtered_witness :
    normalizeInputs (.collection [InputElem.other,
        InputElem.data { data := [("text", MVal.s "hello")] }]) "text" =
      normalizeInputs (.collection ([InputElem.other,
        InputElem.data { data := [("text", MVal.s "hello")] }].filter
          InputElem.isData)) "text" :=
  invalid_elements_filtered _ "text" (by decide)

/-- C8: parsing an emitted record's `metadata` JSON string recovers a
mapping that carries `chunk_index` as an integer (the chunk's position)
and `source_id` as a string, together with every key of the chunk's
original metadata.  (If the original metadata already carried a
`source_id`, it is assumed to be a string, as the spec's data model
prescribes for that key.) -/
theorem metadata_roundtrip (now : String) (cs : List Document) (ctr k : Nat)
    (hk : k < cs.length)
    (hsrc : ∀ v, dictGet? (cs.getD k defaultDoc).metadata "source_id" = some v →
      ∃ s, v = MVal.s s) :
    ∃ m, parseMeta ((docsToOracleData now cs 0 ctr).getD k defaultRecord).metadata = some m ∧
      dictGet? m "chunk_index" = some (MVal.i (k : Int)) ∧
      (∃ s, dictGet? m "source_id" = some (MVal.s s)) ∧
      (∀ key, (dictGet? (cs.getD k defaultDoc).metadata key).isSome = true →
        (dictGet? m key).isSome = true) := by
  rw [docsToOracleData_getD now cs 0 ctr k hk]
  refine ⟨updatedMeta (cs.getD k defaultDoc).metadata (0 + k) (ctr + 2 * k), ?_, ?_, ?_, ?_⟩
  · rw [(oracleRecordOf_fields now (0 + k) (ctr + 2 * k) (cs.getD k defaultDoc)).2.2.2]
    exact parseMeta_renderMeta _
  · rw [updatedMeta_chunk_index]
    norm_num
  · rw [updatedMeta_source_id]
    rcases hcase : dictGet? (cs.getD k defaultDoc).metadata "source_id" with _ | v
    · exact ⟨uuidFromNat (ctr + 2 * k + 1), by norm_num⟩
    · obtain ⟨s, rfl⟩ := hsrc v hcase
      exact ⟨s, by norm_num⟩
  · intro key hkey
    exact updatedMeta_keys _ _ _ _ hkey

/-- C8 witness: the theorem instantiated at one chunk with empty
metadata, at counter 0. -/
theorem metadata_roundtrip_witness :
    ∃ m, parseMeta ((docsToOracleData "T" [{ page_content := "A", metadata := [] }] 0 0).getD
        0 defaultRecord).metadata = some m ∧
      dictGet? m "chunk_index" = some (MVal.i 0) ∧
      (∃ s, dictGet? m "source_id" = some (MVal.s s)) ∧
      (∀ key,
        (dictGet? (([{ page_content := "A", metadata := [] }] : List Document).getD 0
          defaultDoc).metadata key).isSome = true →
        (dictGet? m key).isSome = true) := by
  have h := metadata_roundtrip "T" [{ page_content := "A", metadata := [] }] 0 0
    (by decide) (fun v hv => nomatch hv)
  simpa using h

/-- C9: every emitted record's `id` is a syntactically valid version-4
UUID string, and (relative to the counter-indexed model of the random
UUID supply, whose draws within one invocation stay below the 16^30
state space) the ids of one invocation are pairwise distinct — each
record consumes fresh draws, with no reuse or deduplication. -/
theorem record_ids_valid_distinct (inputs : DataInputs) (p : SplitParams) (ctr : Nat)
    (now : String) (recs : List OracleRecord)
    (hr : splitText inputs p ctr now = .ok recs)
    (hbound : ctr + 2 * recs.length ≤ 16 ^ 30) :
    (∀ k, k < recs.length → isValidUUIDv4 ((recs.getD k defaultRecord).id) = true) ∧
    (∀ k k', k < recs.length → k' < recs.length → k ≠ k' →
      (recs.getD k defaultRecord).id ≠ (recs.getD k' defaultRecord).id) := by
  obtain ⟨chunks, _, hrecs⟩ := splitText_ok_inv inputs p ctr now recs hr
  subst hrecs
  rw [docsToOracleData_length] at hbound
  have hid : ∀ k, k < chunks.length →
      ((docsToOracleData now chunks 0 ctr).getD k defaultRecord).id =
        uuidFromNat (ctr + 2 * k) := by
    intro k hk
    rw [docsToOracleData_getD now chunks 0 ctr k hk]
    exact (oracleRecordOf_fields now (0 + k) (ctr + 2 * k) (chunks.getD k defaultDoc)).1
  constructor
  · intro k hk
    rw [docsToOracleData_length] at hk
    rw [hid k hk]
    exact uuid_valid _
  · intro k k' hk hk' hkk heq
    rw [docsToOracleData_length] at hk hk'
    rw [hid k hk, hid k' hk'] at heq
    have h1 : ctr + 2 * k < 16 ^ 30 := by omega
    have h2 : ctr + 2 * k' < 16 ^ 30 := by omega
    have := uuidFromNat_inj _ _ h1 h2 heq
    omega

/-- C9 witness: on the `"A.B.C"` scenario input from counter 0, the three
records exist, the bound on the supply holds, the first id is a valid
version-4 UUID and the first two ids differ. -/
theorem record_ids_valid_distinct_witness :
    isValidUUIDv4 ((((splitText abcInput unitParams 0 "T").toOption.getD []).getD 0
        defaultRecord).id) = true ∧
    (((splitText abcInput unitParams 0 "T").toOption.getD []).getD 0 defaultRecord).id ≠
      (((splitText abcInput unitParams 0 "T").toOption.getD []).getD 1 defaultRecord).id := by
  have h := record_ids_valid_distinct abcInput unitParams 0 "T"
    ((splitText abcInput unitParams 0 "T").toOption.getD []) (by decide) (by decide)
  exact ⟨h.1 0 (by decide), h.2 0 1 (by decide) (by decide) (by decide)⟩

/-- C10: the record mapper mutates each chunk's metadata dict in place
(the heap cell the chunk references is updated, not a copy), the emitted
record's `source_metadata` is that very object (the same reference), the
mutated object always carries the added `chunk_index` and `source_id`
keys, the serialized `metadata` JSON reflects the mutated object, and
any other holder of the chunk's metadata reference observes the added
keys in the final heap.  (The chunks of one invocation reference
pairwise distinct live metadata objects, as the splitter deep-copies the
metadata per chunk.) -/
theorem source_metadata_in_place (now : String) (ds : List ChunkRef) (ctr : Nat)
    (st : MetaStore) (hnodup : (ds.map ChunkRef.metaRef).Nodup)
    (hb : ∀ d ∈ ds, d.metaRef < st.length) (k : Nat) (hk : k < ds.length) :
    ((docsToOracleDataRef now ds 0 ctr st).1.getD k defaultRecordRef).source_metadata =
      (ds.getD k defaultChunkRef).metaRef ∧
    dictGet? (storeGet (docsToOracleDataRef now ds 0 ctr st).2
        ((ds.getD k defaultChunkRef).metaRef)) "chunk_index" = some (MVal.i (k : Int)) ∧
    (dictGet? (storeGet (docsToOracleDataRef now ds 0 ctr st).2
        ((ds.getD k defaultChunkRef).metaRef)) "source_id").isSome = true ∧
    ((docsToOracleDataRef now ds 0 ctr st).1.getD k defaultRecordRef).metadata =
      renderMeta (storeGet (docsToOracleDataRef now ds 0 ctr st).2
        ((ds.getD k defaultChunkRef).metaRef)) := by
  obtain ⟨hs, hm, hj⟩ := docsToOracleDataRef_spec now ds 0 ctr st hnodup hb k hk
  refine ⟨hs, ?_, ?_, ?_⟩
  · rw [hm, updatedMeta_chunk_index]
    norm_num
  · rw [hm, updatedMeta_source_id]
    rfl
  · rw [hm, hj]

/-- C10 witness: two chunks referencing the two distinct cells of a
two-cell heap, from counter 0, checked at position 0. -/
theorem source_metadata_in_place_witness :
    (((docsToOracleDataRef "T" [{ page_content := "A", metaRef := 0 },
        { page_content := "B", metaRef := 1 }] 0 0 [[], []]).1.getD 0
          defaultRecordRef).source_metadata =
      (([{ page_content := "A", metaRef := 0 },
        { page_content := "B", metaRef := 1 }] : List ChunkRef).getD 0
          defaultChunkRef).metaRef) ∧
    dictGet? (storeGet (docsToOracleDataRef "T" [{ page_content := "A", metaRef := 0 },
        { page_content := "B", metaRef := 1 }] 0 0 [[], []]).2
        ((([{ page_content := "A", metaRef := 0 },
          { page_content := "B", metaRef := 1 }] : List ChunkRef).getD 0
            defaultChunkRef).metaRef)) "chunk_index" = some (MVal.i 0) ∧
    (dictGet? (storeGet (docsToOracleDataRef "T" [{ page_content := "A", metaRef := 0 },
        { page_content := "B", metaRef := 1 }] 0 0 [[], []]).2
        ((([{ page_content := "A", metaRef := 0 },
          { page_content := "B", metaRef := 1 }] : List ChunkRef).getD 0
            defaultChunkRef).metaRef)) "source_id").isSome = true ∧
    ((docsToOracleDataRef "T" [{ page_content := "A", metaRef := 0 },
        { page_content := "B", metaRef := 1 }] 0 0 [[], []]).1.getD 0
          defaultRecordRef).metadata =
      renderMeta (storeGet (docsToOracleDataRef "T" [{ page_content := "A", metaRef := 0 },
        { page_content := "B", metaRef := 1 }] 0 0 [[], []]).2
        ((([{ page_content := "A", metaRef := 0 },
          { page_content := "B", metaRef := 1 }] : List ChunkRef).getD 0
            defaultChunkRef).metaRef)) := by
  have h := source_metadata_in_place "T" [{ page_content := "A", metaRef := 0 },
    { page_content := "B", metaRef := 1 }] 0 [[], []] (by decide)
    (by decide) 0 (by decide)
  simpa using h
